import Mathlib

/-!
Verification of the task-lifecycle and chat-attribution logic of the
playbook tasks tool.  The Python sources `core.py` and `cli.py` are embedded
shallowly: a task document is its list of lines, the task store is a list of
(directory name, document) pairs, and the session pointer files are a list of
(file name, content) pairs.  All Python string scanning is reproduced on
`List Char`.
-/

/-- Python whitespace characters recognised by `str.strip`. -/
def isPySpace (c : Char) : Bool :=
  c == ' ' || c == '\t' || c == '\n' || c == '\r' || c == '\x0b' || c == '\x0c'

/-- The character data of `str.strip`: drop whitespace from both ends. -/
def pyStripData (cs : List Char) : List Char :=
  ((cs.dropWhile isPySpace).reverse.dropWhile isPySpace).reverse

/-- Python `str.strip()`. -/
def pyStrip (s : String) : String := String.mk (pyStripData s.data)

/-- Python `str.startswith`. -/
def strStarts (s p : String) : Bool := p.data.isPrefixOf s.data

/-- Python `str.endswith`. -/
def strEnds (s p : String) : Bool := p.data.isSuffixOf s.data

/-- Python substring membership `needle in hay`. -/
def isSubstr (needle hay : List Char) : Bool :=
  hay.tails.any (fun t => needle.isPrefixOf t)

/-- A line whose stripped form starts with the unchecked checkbox marker
(`core.py`, the `stripped.startswith("- [ ]")` tests). -/
def isUncheckedLine (l : String) : Bool := strStarts (pyStrip l) "- [ ]"

/-- A still-empty required field line: stripped form ends with a colon and
starts with the bold-field marker (`core.py`). -/
def isEmptyFieldLine (l : String) : Bool :=
  strEnds (pyStrip l) ":" && strStarts (pyStrip l) "- **"

/-- `stripped[6:].strip()` from `core.py`: the text of a checkbox line after
its marker. -/
def gateText (stripped : String) : String :=
  pyStrip (String.mk (stripped.data.drop 6))

/-- `_extract_head_position` from `core.py`: first unchecked checkbox text,
else the first empty required field line, else the parenthesised sentinel. -/
def _extract_head_position : List String → String
  | [] => "(all gates checked)"
  | l :: ls =>
    if isUncheckedLine l then gateText (pyStrip l)
    else if isEmptyFieldLine l then pyStrip l
    else _extract_head_position ls

/-- Index of the last line equal (after stripping) to the status heading,
as tracked by the last-wins loop in `_extract_status` (`core.py`). -/
def lastStatusIdx : List String → Option Nat
  | [] => none
  | l :: ls =>
    match lastStatusIdx ls with
    | some j => some (j + 1)
    | none => if pyStrip l == "## Status" then some 0 else none

/-- `_extract_status` from `core.py`: the stripped line following the last
`## Status` heading, or `"unknown"`. -/
def _extract_status (lines : List String) : String :=
  match lastStatusIdx lines with
  | some i => if i + 1 < lines.length then pyStrip (lines.getD (i + 1) "") else "unknown"
  | none => "unknown"

/-- `_is_done` from `core.py`. -/
def _is_done (lines : List String) : Bool := strStarts (_extract_status lines) "done"

/-- C3 counterexample document: every checkbox is checked, yet an empty
required field line is present. -/
def c3Doc : List String := ["- [x] alpha", "- **Owner**:"]

/-- C3: the claim states `head_position` returns the sentinel iff every
checklist line is checked.  Counterexample: in `c3Doc` every checkbox line is
checked, yet the head position is the empty required field line, not the
sentinel. -/
theorem C3_counterexample :
    _extract_head_position c3Doc = "- **Owner**:" ∧
    (∀ l ∈ c3Doc, isUncheckedLine l = false) ∧
    "- **Owner**:" ≠ "(all gates checked)" := by
  refine ⟨by decide, by decide, by decide⟩

/-- C3 (amended): provided no gate's own text is literally the sentinel
string, `head_position` returns the sentinel iff the document has no
unchecked checkbox line and no still-empty required field line. -/
theorem C3_amended : ∀ lines : List String,
    (∀ l ∈ lines, isUncheckedLine l = true → gateText (pyStrip l) ≠ "(all gates checked)") →
    (_extract_head_position lines = "(all gates checked)" ↔
      ∀ l ∈ lines, isUncheckedLine l = false ∧ isEmptyFieldLine l = false) := by
  intro lines
  induction lines with
  | nil => intro _; simp [_extract_head_position]
  | cons l ls ih =>
    intro hguard
    have hl := hguard l (by simp)
    have hls : ∀ x ∈ ls, isUncheckedLine x = true → gateText (pyStrip x) ≠ "(all gates checked)" :=
      fun x hx => hguard x (by simp [hx])
    by_cases hu : isUncheckedLine l
    · simp only [_extract_head_position, hu, if_pos]
      constructor
      · intro heq; exact absurd heq (hl hu)
      · intro h; have := (h l (by simp)).1; rw [hu] at this; cases this
    · by_cases hf : isEmptyFieldLine l
      · simp only [_extract_head_position, hu, if_neg, Bool.false_eq_true, if_pos hf,
          if_false]
        constructor
        · intro heq
          exfalso
          have hstart : strStarts (pyStrip l) "- **" = true := by
            have := hf
            unfold isEmptyFieldLine at this
            exact (Bool.and_eq_true _ _ |>.mp this).2
          rw [heq] at hstart
          exact absurd hstart (by decide)
        · intro h; have := (h l (by simp)).2; rw [hf] at this; cases this
      · simp only [_extract_head_position, hu, hf, Bool.false_eq_true, if_false]
        rw [ih hls]
        constructor
        · intro h; intro x hx
          rcases List.mem_cons.mp hx with rfl | hx2
          · exact ⟨Bool.eq_false_iff.mpr (fun h2 => hu h2),
              Bool.eq_false_iff.mpr (fun h2 => hf h2)⟩
          · exact h x hx2
        · intro h x hx; exact h x (by simp [hx])

/-- C3 witness: the amended theorem applied to a concrete document whose
gates are all checked and which has no empty field line. -/
theorem C3_witness :
    (∀ l ∈ (["- [x] a", "done"] : List String),
      isUncheckedLine l = true → gateText (pyStrip l) ≠ "(all gates checked)") ∧
    (_extract_head_position ["- [x] a", "done"] = "(all gates checked)" ↔
      ∀ l ∈ (["- [x] a", "done"] : List String),
        isUncheckedLine l = false ∧ isEmptyFieldLine l = false) :=
  ⟨by decide, C3_amended ["- [x] a", "done"] (by decide)⟩

/-! ### Lexicographic string order (Python string comparison) -/

/-- Strict lexicographic order on character lists, by code point, as Python
compares strings. -/
def lexLt : List Char → List Char → Bool
  | _, [] => false
  | [], _ :: _ => true
  | a :: as, b :: bs =>
    if a.toNat < b.toNat then true
    else if b.toNat < a.toNat then false
    else lexLt as bs

/-- Python `a <= b` on strings. -/
def strLe (a b : String) : Bool := !(lexLt b.data a.data)

theorem lexLt_irrefl : ∀ l : List Char, lexLt l l = false := by
  intro l
  induction l with
  | nil => rfl
  | cons a as ih => simp [lexLt, ih]

theorem strLe_refl (a : String) : strLe a a = true := by
  simp [strLe, lexLt_irrefl]

theorem lexLt_trans : ∀ a b c : List Char,
    lexLt a b = true → lexLt b c = true → lexLt a c = true := by
  intro a
  induction a with
  | nil =>
    intro b c hab hbc
    cases c with
    | nil => cases b <;> simp [lexLt] at hab hbc
    | cons _ _ => simp [lexLt]
  | cons x xs ih =>
    intro b c hab hbc
    cases b with
    | nil => simp [lexLt] at hab
    | cons y ys =>
      cases c with
      | nil => simp [lexLt] at hbc
      | cons z zs =>
        simp only [lexLt] at hab hbc ⊢
        by_cases hxy : x.toNat < y.toNat
        · by_cases hyz : y.toNat < z.toNat
          · simp [Nat.lt_trans hxy hyz]
          · by_cases hzy : z.toNat < y.toNat
            · simp [hyz, hzy] at hbc
            · have : y.toNat = z.toNat := Nat.le_antisymm (Nat.le_of_not_lt hzy) (Nat.le_of_not_lt hyz)
              simp [this ▸ hxy]
        · by_cases hyx : y.toNat < x.toNat
          · simp [hxy, hyx] at hab
          · have hxyeq : x.toNat = y.toNat := Nat.le_antisymm (Nat.le_of_not_lt hyx) (Nat.le_of_not_lt hxy)
            simp only [hxy, if_false, hyx, if_false] at hab
            by_cases hyz : y.toNat < z.toNat
            · simp [hxyeq ▸ hyz]
            · by_cases hzy : z.toNat < y.toNat
              · simp [hyz, hzy] at hbc
              · simp only [hyz, if_false, hzy, if_false] at hbc
                have hxz : ¬ x.toNat < z.toNat := by omega
                have hzx : ¬ z.toNat < x.toNat := by omega
                simp [hxz, hzx, ih ys zs hab hbc]

theorem lexLt_connex : ∀ a b : List Char,
    lexLt a b = false → lexLt b a = false → a = b := by
  intro a
  induction a with
  | nil =>
    intro b hab _
    cases b with
    | nil => rfl
    | cons _ _ => simp [lexLt] at hab
  | cons x xs ih =>
    intro b hab hba
    cases b with
    | nil => simp [lexLt] at hba
    | cons y ys =>
      simp only [lexLt] at hab hba
      by_cases hxy : x.toNat < y.toNat
      · simp [hxy] at hab
      · by_cases hyx : y.toNat < x.toNat
        · simp [hxy, hyx] at hba
        · have hxyeq : x = y := by
            apply Char.eq_of_val_eq
            apply UInt32.ext
            simp only [Char.toNat] at hxy hyx
            omega
          simp only [hxy, if_false, hyx, if_false] at hab hba
          rw [hxyeq, ih ys hab hba]

theorem strLe_trans (a b c : String) (hab : strLe a b = true) (hbc : strLe b c = true) :
    strLe a c = true := by
  simp only [strLe, Bool.not_eq_true'] at hab hbc ⊢
  by_contra h
  rw [Bool.not_eq_false] at h
  cases hba : lexLt a.data b.data with
  | true =>
    have hcb := lexLt_trans _ _ _ h hba
    rw [hcb] at hbc
    cases hbc
  | false =>
    have hEq : a.data = b.data := lexLt_connex _ _ hba hab
    rw [← hEq, h] at hbc
    cases hbc

/-! ### Task store (`core.py`): slugify, numbering, find-active -/

/-- Characters matched by the Python regex class `[\s_]`. -/
def isSpaceUnder (c : Char) : Bool := isPySpace c || c == '_'

/-- ASCII letters and digits, the class `[a-zA-Z0-9]`. -/
def isAsciiAlnum (c : Char) : Bool :=
  (97 ≤ c.toNat && c.toNat ≤ 122) || (65 ≤ c.toNat && c.toNat ≤ 90) ||
    (48 ≤ c.toNat && c.toNat ≤ 57)

/-- Replace every maximal run of characters satisfying `p` by the single
character `rep` (the effect of `re.sub(cls+,-)`); the flag records whether
the previous character was inside a run. -/
def squashRunsAux (p : Char → Bool) (rep : Char) : Bool → List Char → List Char
  | _, [] => []
  | inRun, c :: cs =>
    if p c then (if inRun then [] else [rep]) ++ squashRunsAux p rep true cs
    else c :: squashRunsAux p rep false cs

def squashRuns (p : Char → Bool) (rep : Char) (l : List Char) : List Char :=
  squashRunsAux p rep false l

/-- `_slugify` from `core.py`: collapse whitespace and underscores to
hyphens, drop characters outside `[a-zA-Z0-9-]`, collapse repeated hyphens,
strip outer hyphens, lowercase. -/
def slugStep2 (name : String) : List Char :=
  (squashRuns isSpaceUnder '-' name.data).filter (fun c => isAsciiAlnum c || c == '-')

def _slugify (name : String) : String :=
  String.mk
    (((((squashRuns (fun c => c == '-') '-' (slugStep2 name)).dropWhile
        (fun c => c == '-')).reverse.dropWhile (fun c => c == '-')).reverse).map Char.toLower)

/-- Numeric value of a digit run. -/
def digitsVal (ds : List Char) : Nat := ds.foldl (fun acc c => acc * 10 + (c.toNat - 48)) 0

/-- The Python regex `^(\d+)-` applied to a directory name: the numeric value
of a leading digit run that is followed by a hyphen. -/
def leadingNum (s : String) : Option Nat :=
  let ds := s.data.takeWhile Char.isDigit
  if ds.isEmpty then none
  else
    match s.data.drop ds.length with
    | '-' :: _ => some (digitsVal ds)
    | _ => none

/-- `_next_task_number` from `core.py`, over the list of directory names
(an absent tasks directory is the empty list). -/
def _next_task_number (dirNames : List String) : Nat :=
  (dirNames.filterMap leadingNum).foldl max 0 + 1

/-- `f"{n:03d}"`: decimal rendering zero-padded to at least three digits. -/
def pad3 (n : Nat) : String :=
  let s := toString n
  if s.length ≥ 3 then s else String.mk (List.replicate (3 - s.length) '0') ++ s

/-- The folder name `f"{task_num:03d}-{slug}"` chosen by `create_task`
(`core.py`) for a store whose directory names are `dirNames`. -/
def create_folder_name (dirNames : List String) (name : String) : String :=
  pad3 (_next_task_number dirNames) ++ "-" ++ _slugify name

/-- The filter applied per task by `_find_active_task` (`core.py`): name
contains the filter substring (when one is given), status not `done*`, head
position not the parenthesised sentinel. -/
def taskEligible (filterStr : String) (t : String × List String) : Bool :=
  (filterStr == "" || isSubstr filterStr.data t.1.data) &&
    (!(_is_done t.2)) && (!(strStarts (_extract_head_position t.2) "("))

/-- `_find_active_task` from `core.py`: tasks are visited in sorted directory
order (`sorted(tasks_dir.glob(...))`); the first eligible one is returned. -/
def _find_active_task (tasks : List (String × List String)) (filterStr : String) :
    Option (String × List String) :=
  (List.insertionSort (fun a b => strLe a.1 b.1 = true) tasks).find? (taskEligible filterStr)

theorem find_sorted_min {p : (String × List String) → Bool} :
    ∀ l : List (String × List String),
      List.Sorted (fun a b => strLe a.1 b.1 = true) l →
      ∀ d, l.find? p = some d →
        d ∈ l ∧ p d = true ∧ ∀ t ∈ l, p t = true → strLe d.1 t.1 = true := by
  intro l
  induction l with
  | nil => intro _ d hd; simp [List.find?] at hd
  | cons x xs ih =>
    intro hs d hd
    cases hx : p x with
    | true =>
      rw [List.find?, hx] at hd
      injection hd with hd
      subst hd
      refine ⟨by simp, hx, ?_⟩
      intro t ht _
      rcases List.mem_cons.mp ht with rfl | ht2
      · exact strLe_refl _
      · exact List.rel_of_sorted_cons hs t ht2
    | false =>
      rw [List.find?, hx] at hd
      obtain ⟨hmem, hpd, hmin⟩ := ih hs.of_cons d hd
      refine ⟨by simp [hmem], hpd, ?_⟩
      intro t ht hpt
      rcases List.mem_cons.mp ht with rfl | ht2
      · rw [hx] at hpt; cases hpt
      · exact hmin t ht2 hpt

theorem taskEligible_empty (t : String × List String) :
    taskEligible "" t = ((!(_is_done t.2)) && (!(strStarts (_extract_head_position t.2) "("))) := by
  simp [taskEligible]

/-- C8 scenario store: task 001 done with all gates checked, task 002 pending
with one unchecked gate. -/
def c8Store : List (String × List String) :=
  [("001-first", ["## Status", "done", "- [x] a"]),
   ("002-second", ["## Status", "pending", "- [ ] b"])]

/-- C8: over a name-sorted store, `find_active` returns none exactly when no
task is active-eligible (not `done*` and head position not parenthesised),
and otherwise returns an eligible task of minimal directory name; in the
scenario with task 001 done and task 002 pending with an open gate it
returns 002. -/
theorem C8_find_active :
    (∀ tasks : List (String × List String),
      List.Sorted (fun a b => strLe a.1 b.1 = true) tasks →
      ((_find_active_task tasks "" = none ↔
          ∀ t ∈ tasks, ¬(_is_done t.2 = false ∧
            strStarts (_extract_head_position t.2) "(" = false)) ∧
        (∀ d, _find_active_task tasks "" = some d →
          d ∈ tasks ∧ _is_done d.2 = false ∧
            strStarts (_extract_head_position d.2) "(" = false ∧
            ∀ t ∈ tasks, _is_done t.2 = false →
              strStarts (_extract_head_position t.2) "(" = false →
              strLe d.1 t.1 = true))) ∧
    _find_active_task c8Store "" = some ("002-second", ["## Status", "pending", "- [ ] b"]) := by
  constructor
  · intro tasks hs
    have hrw : _find_active_task tasks "" = tasks.find? (taskEligible "") := by
      unfold _find_active_task
      rw [List.Sorted.insertionSort_eq hs]
    constructor
    · rw [hrw, List.find?_eq_none]
      constructor
      · intro h t ht hcontr
        have := h t ht
        rw [taskEligible_empty] at this
        simp only [Bool.and_eq_true, Bool.not_eq_true'] at this
        exact this ⟨hcontr.1, hcontr.2⟩
      · intro h t ht
        intro hel
        rw [taskEligible_empty] at hel
        simp only [Bool.and_eq_true, Bool.not_eq_true'] at hel
        exact h t ht ⟨hel.1, hel.2⟩
    · intro d hd
      rw [hrw] at hd
      obtain ⟨hmem, hpd, hmin⟩ := find_sorted_min tasks hs d hd
      rw [taskEligible_empty] at hpd
      simp only [Bool.and_eq_true, Bool.not_eq_true'] at hpd
      refine ⟨hmem, hpd.1, hpd.2, ?_⟩
      intro t ht h1 h2
      apply hmin t ht
      rw [taskEligible_empty]
      simp only [Bool.and_eq_true, Bool.not_eq_true']
      exact ⟨h1, h2⟩
  · decide

/-- C8 witness: the general part applied to the concrete sorted scenario
store. -/
theorem C8_witness :
    List.Sorted (fun a b : String × List String => strLe a.1 b.1 = true) c8Store ∧
    ((_find_active_task c8Store "" = none ↔
        ∀ t ∈ c8Store, ¬(_is_done t.2 = false ∧
          strStarts (_extract_head_position t.2) "(" = false)) ∧
      (∀ d, _find_active_task c8Store "" = some d →
        d ∈ c8Store ∧ _is_done d.2 = false ∧
          strStarts (_extract_head_position d.2) "(" = false ∧
          ∀ t ∈ c8Store, _is_done t.2 = false →
            strStarts (_extract_head_position t.2) "(" = false →
            strLe d.1 t.1 = true)) :=
  ⟨by decide, C8_find_active.1 c8Store (by decide)⟩

theorem mem_squashRunsAux (p : Char → Bool) (rep : Char) :
    ∀ (l : List Char) (b : Bool), ∀ c ∈ squashRunsAux p rep b l, c = rep ∨ c ∈ l := by
  intro l
  induction l with
  | nil => intro b c hc; simp [squashRunsAux] at hc
  | cons x xs ih =>
    intro b c hc
    simp only [squashRunsAux] at hc
    by_cases hx : p x
    · rw [if_pos hx] at hc
      rcases List.mem_append.mp hc with h1 | h2
      · left
        cases b
        · simpa using h1
        · simp at h1
      · rcases ih true c h2 with h | h
        · left; exact h
        · right; simp [h]
    · rw [if_neg hx] at hc
      rcases List.mem_cons.mp hc with rfl | h2
      · right; simp
      · rcases ih false c h2 with h | h
        · left; exact h
        · right; simp [h]

theorem squash_dash_all : ∀ l : List Char, (∀ c ∈ l, c = '-') →
    squashRunsAux (fun c => c == '-') '-' true l = [] ∧
    squashRunsAux (fun c => c == '-') '-' false l = (if l.isEmpty then [] else ['-']) := by
  intro l
  induction l with
  | nil => simp [squashRunsAux]
  | cons x xs ih =>
    intro hl
    have hx : x = '-' := hl x (by simp)
    have hxs := ih (fun c hc => hl c (by simp [hc]))
    subst hx
    refine ⟨?_, ?_⟩
    · simp [squashRunsAux, hxs.1]
    · simp [squashRunsAux, hxs.1]

theorem slugify_of_no_alnum (name : String)
    (h : ∀ c ∈ name.data, isAsciiAlnum c = false) : _slugify name = "" := by
  unfold _slugify
  have hs2 : ∀ c ∈ slugStep2 name, c = '-' := by
    intro c hc
    simp only [slugStep2] at hc
    obtain ⟨hc1, hc2⟩ := List.mem_filter.mp hc
    rcases mem_squashRunsAux isSpaceUnder '-' name.data false c (by simpa [squashRuns] using hc1) with h1 | h1
    · exact h1
    · have h2 := h c h1
      rw [h2] at hc2
      simpa using hc2
  have hs3 := (squash_dash_all _ hs2).2
  rw [squashRuns, hs3]
  by_cases he : (slugStep2 name).isEmpty
  · rw [if_pos he]; rfl
  · rw [if_neg he]; rfl

/-- C10 document placed in the created directory: pending status, one open
gate. -/
def c10Doc : List String := ["## Status", "pending", "- [ ] first gate"]

/-- C10: for a name with no ASCII letters or digits, `slugify` returns the
empty string, `create_task` still produces a directory named by the padded
number with a bare trailing hyphen, and both `next_identifier` and
`find_active` still recognise that directory. -/
theorem C10_slugify_bare_folder : ∀ name : String,
    (∀ c ∈ name.data, isAsciiAlnum c = false) →
    _slugify name = "" ∧
    (∀ dirs : List String,
      create_folder_name dirs name = pad3 (_next_task_number dirs) ++ "-") ∧
    leadingNum (create_folder_name [] name) = some 1 ∧
    _next_task_number [create_folder_name [] name] = 2 ∧
    _find_active_task [(create_folder_name [] name, c10Doc)] "" =
      some (create_folder_name [] name, c10Doc) := by
  intro name h
  have hslug := slugify_of_no_alnum name h
  have hfold : ∀ dirs : List String,
      create_folder_name dirs name = pad3 (_next_task_number dirs) ++ "-" := by
    intro dirs
    rw [create_folder_name, hslug]
    simp
  have h001 : create_folder_name [] name = "001-" := by
    rw [hfold []]
    decide
  refine ⟨hslug, hfold, ?_, ?_, ?_⟩
  · rw [h001]; decide
  · rw [h001]; decide
  · rw [h001]; decide

/-- C10 witness: the theorem applied to the concrete name `"###"`. -/
theorem C10_witness :
    (∀ c ∈ ("###" : String).data, isAsciiAlnum c = false) ∧
    (_slugify "###" = "" ∧
      (∀ dirs : List String,
        create_folder_name dirs "###" = pad3 (_next_task_number dirs) ++ "-") ∧
      leadingNum (create_folder_name [] "###") = some 1 ∧
      _next_task_number [create_folder_name [] "###"] = 2 ∧
      _find_active_task [(create_folder_name [] "###", c10Doc)] "" =
        some (create_folder_name [] "###", c10Doc)) :=
  ⟨by decide, C10_slugify_bare_folder "###" (by decide)⟩

/-! ### Gate checking (`task_done` in `core.py`) -/

/-- Python `line.replace(pat, rep, 1)` on character data: replace the first
occurrence of `pat`. -/
def replaceFirst (l pat rep : List Char) : List Char :=
  match l with
  | [] => []
  | c :: cs =>
    if pat.isPrefixOf (c :: cs) then rep ++ (c :: cs).drop pat.length
    else c :: replaceFirst cs pat rep

/-- `line.replace("- [ ]", "- [x]", 1)` from `task_done`. -/
def flipFirstBox (l : String) : String :=
  String.mk (replaceFirst l.data "- [ ]".data "- [x]".data)

/-- Index of the first line whose stripped form starts with the unchecked
marker (the search loop of `task_done`). -/
def firstUncheckedIdx : List String → Option Nat
  | [] => none
  | l :: ls =>
    if isUncheckedLine l then some 0 else (firstUncheckedIdx ls).map (· + 1)

/-- The preview collection of `task_done`: up to `k` gate-shaped lines
(unchecked checkboxes or empty required fields) from the given lines. -/
def upcomingGates : List String → Nat → List String
  | [], _ => []
  | l :: ls, k =>
    if k = 0 then []
    else if isUncheckedLine l then gateText (pyStrip l) :: upcomingGates ls (k - 1)
    else if isEmptyFieldLine l then pyStrip l :: upcomingGates ls (k - 1)
    else upcomingGates ls k

/-- The document-mutating part of `task_done` (`core.py`): flip the first
unchecked checkbox, persist the whole document, and return the checked text
plus up to three upcoming gate-shaped lines; error when no gate is open (the
document is not written in that case). -/
def check_next_gate (lines : List String) :
    Except String (List String × String × List String) :=
  match firstUncheckedIdx lines with
  | none => Except.error "No unchecked gate"
  | some i =>
    Except.ok (lines.set i (flipFirstBox (lines.getD i "")),
      gateText (pyStrip (lines.getD i "")),
      upcomingGates ((lines.set i (flipFirstBox (lines.getD i ""))).drop (i + 1)) 3)

theorem isSubstr_of_isInfix {pat hay : List Char} (h : pat <:+: hay) :
    isSubstr pat hay = true := by
  obtain ⟨t, hpre, hsuf⟩ := List.infix_iff_prefix_suffix.mp h
  unfold isSubstr
  rw [List.any_eq_true]
  exact ⟨t, (List.mem_tails _ _).mpr hsuf, List.isPrefixOf_iff_prefix.mpr hpre⟩

theorem pyStripData_isInfix (cs : List Char) : pyStripData cs <:+: cs := by
  have h1 : cs.dropWhile isPySpace <:+ cs := cs.dropWhile_suffix isPySpace
  have h2 : (cs.dropWhile isPySpace).reverse.dropWhile isPySpace <:+
      (cs.dropWhile isPySpace).reverse := (cs.dropWhile isPySpace).reverse.dropWhile_suffix isPySpace
  have h3 : pyStripData cs <+: cs.dropWhile isPySpace := by
    rw [← List.reverse_suffix]
    simpa [pyStripData] using h2
  exact h3.isInfix.trans h1.isInfix

theorem replaceFirst_of_contains (pat rep : List Char) (hpat : pat ≠ []) :
    ∀ l : List Char, isSubstr pat l = true →
      ∃ pre suf, l = pre ++ pat ++ suf ∧ replaceFirst l pat rep = pre ++ rep ++ suf := by
  intro l
  induction l with
  | nil =>
    intro hsub
    exfalso
    cases pat with
    | nil => exact hpat rfl
    | cons p ps => simp [isSubstr, List.tails, List.isPrefixOf] at hsub
  | cons c cs ih =>
    intro hsub
    by_cases hpre : pat.isPrefixOf (c :: cs)
    · obtain ⟨suf, hsuf⟩ := List.isPrefixOf_iff_prefix.mp hpre
      refine ⟨[], suf, by simpa using hsuf.symm, ?_⟩
      rw [replaceFirst, if_pos hpre, ← hsuf, List.drop_left]
      simp
    · have hsub2 : isSubstr pat cs = true := by
        unfold isSubstr at hsub ⊢
        rw [List.tails_cons, List.any_cons] at hsub
        cases hp2 : pat.isPrefixOf (c :: cs) with
        | true => exact absurd hp2 hpre
        | false => rw [hp2, Bool.false_or] at hsub; exact hsub
      obtain ⟨pre, suf, heq, hrep⟩ := ih hsub2
      refine ⟨c :: pre, suf, by simp [heq], ?_⟩
      rw [replaceFirst, if_neg hpre, hrep]
      simp

theorem firstUncheckedIdx_none : ∀ lines : List String,
    (∀ l ∈ lines, isUncheckedLine l = false) → firstUncheckedIdx lines = none := by
  intro lines
  induction lines with
  | nil => intro _; rfl
  | cons l ls ih =>
    intro h
    have hl := h l (by simp)
    rw [firstUncheckedIdx, if_neg (by simp [hl]), ih (fun x hx => h x (by simp [hx]))]
    rfl

theorem firstUncheckedIdx_some : ∀ (lines : List String) (i : Nat),
    i < lines.length → isUncheckedLine (lines.getD i "") = true →
    (∀ j, j < i → isUncheckedLine (lines.getD j "") = false) →
    firstUncheckedIdx lines = some i := by
  intro lines
  induction lines with
  | nil => intro i hi; simp at hi
  | cons l ls ih =>
    intro i hi hu hmin
    cases i with
    | zero =>
      simp only [List.getD] at hu
      rw [firstUncheckedIdx, if_pos (by simpa using hu)]
    | succ i' =>
      have hl : isUncheckedLine l = false := by
        have := hmin 0 (Nat.succ_pos _)
        simpa [List.getD] using this
      rw [firstUncheckedIdx, if_neg (by simp [hl])]
      have := ih i' (by simpa using hi) (by simpa [List.getD] using hu)
        (fun j hj => by simpa [List.getD] using hmin (j + 1) (Nat.succ_lt_succ hj))
      rw [this]
      rfl

theorem drop_set_succ : ∀ (l : List String) (i : Nat) (x : String),
    (l.set i x).drop (i + 1) = l.drop (i + 1) := by
  intro l
  induction l with
  | nil => intro i x; simp
  | cons a as ih =>
    intro i x
    cases i with
    | zero => simp
    | succ i' => simpa using ih i' x

theorem upcomingGates_len_le : ∀ (ls : List String) (k : Nat),
    (upcomingGates ls k).length ≤ k := by
  intro ls
  induction ls with
  | nil => intro k; simp [upcomingGates]
  | cons l ls ih =>
    intro k
    rw [upcomingGates]
    by_cases hk : k = 0
    · simp [hk]
    · rw [if_neg hk]
      by_cases hu : isUncheckedLine l
      · rw [if_pos hu]
        have := ih (k - 1)
        simp only [List.length_cons]
        omega
      · rw [if_neg hu]
        by_cases hf : isEmptyFieldLine l
        · rw [if_pos hf]
          have := ih (k - 1)
          simp only [List.length_cons]
          omega
        · rw [if_neg hf]
          exact ih k

theorem upcomingGates_mem : ∀ (ls : List String) (k : Nat) (u : String),
    u ∈ upcomingGates ls k →
    ∃ l' ∈ ls, (isUncheckedLine l' = true ∧ u = gateText (pyStrip l')) ∨
      (isEmptyFieldLine l' = true ∧ u = pyStrip l') := by
  intro ls
  induction ls with
  | nil => intro k u hu; simp [upcomingGates] at hu
  | cons l ls ih =>
    intro k u hu
    rw [upcomingGates] at hu
    by_cases hk : k = 0
    · rw [if_pos hk] at hu; simp at hu
    · rw [if_neg hk] at hu
      by_cases h1 : isUncheckedLine l
      · rw [if_pos h1] at hu
        rcases List.mem_cons.mp hu with rfl | hu2
        · exact ⟨l, by simp, Or.inl ⟨h1, rfl⟩⟩
        · obtain ⟨l', hl', hcase⟩ := ih (k - 1) u hu2
          exact ⟨l', by simp [hl'], hcase⟩
      · rw [if_neg h1] at hu
        by_cases h2 : isEmptyFieldLine l
        · rw [if_pos h2] at hu
          rcases List.mem_cons.mp hu with rfl | hu2
          · exact ⟨l, by simp, Or.inr ⟨h2, rfl⟩⟩
          · obtain ⟨l', hl', hcase⟩ := ih (k - 1) u hu2
            exact ⟨l', by simp [hl'], hcase⟩
        · rw [if_neg h2] at hu
          obtain ⟨l', hl', hcase⟩ := ih k u hu
          exact ⟨l', by simp [hl'], hcase⟩

/-- C9: on a document with at least one unchecked checkbox (the first at
index `i`), `check_next_gate` succeeds, rewrites only that line — replacing
its first occurrence of the unchecked marker by the checked marker, all
other characters and lines unchanged — and returns that line's gate text
plus at most three upcoming gate-shaped lines drawn from the lines after it;
on a document with no unchecked checkbox it fails with the no-open-gate
error (and, the document not being written, it is unchanged). -/
theorem C9_check_next_gate : ∀ lines : List String,
    ((∀ l ∈ lines, isUncheckedLine l = false) →
      check_next_gate lines = Except.error "No unchecked gate") ∧
    (∀ i : Nat, i < lines.length → isUncheckedLine (lines.getD i "") = true →
      (∀ j, j < i → isUncheckedLine (lines.getD j "") = false) →
      ∃ pre suf res,
        (lines.getD i "").data = pre ++ ("- [ ]".data) ++ suf ∧
        check_next_gate lines = Except.ok res ∧
        res.1 = lines.set i (String.mk (pre ++ ("- [x]".data) ++ suf)) ∧
        res.2.1 = gateText (pyStrip (lines.getD i "")) ∧
        res.2.2 = upcomingGates (lines.drop (i + 1)) 3 ∧
        res.2.2.length ≤ 3 ∧
        (∀ u ∈ res.2.2, ∃ l' ∈ lines.drop (i + 1),
          (isUncheckedLine l' = true ∧ u = gateText (pyStrip l')) ∨
          (isEmptyFieldLine l' = true ∧ u = pyStrip l'))) := by
  intro lines
  constructor
  · intro h
    rw [check_next_gate, firstUncheckedIdx_none lines h]
  · intro i hi hu hmin
    have hidx := firstUncheckedIdx_some lines i hi hu hmin
    have hinfix : ("- [ ]" : String).data <:+: (lines.getD i "").data := by
      have hpre : ("- [ ]" : String).data <+: pyStripData (lines.getD i "").data := by
        have := hu
        unfold isUncheckedLine strStarts pyStrip at this
        exact List.isPrefixOf_iff_prefix.mp this
      exact hpre.isInfix.trans (pyStripData_isInfix _)
    obtain ⟨pre, suf, heq, hrep⟩ :=
      replaceFirst_of_contains ("- [ ]".data) ("- [x]".data) (by decide)
        (lines.getD i "").data (isSubstr_of_isInfix hinfix)
    refine ⟨pre, suf,
      (lines.set i (flipFirstBox (lines.getD i "")),
        gateText (pyStrip (lines.getD i "")),
        upcomingGates ((lines.set i (flipFirstBox (lines.getD i ""))).drop (i + 1)) 3),
      heq, ?_, ?_, rfl, ?_, ?_, ?_⟩
    · rw [check_next_gate, hidx]
    · show lines.set i (flipFirstBox (lines.getD i "")) = _
      rw [flipFirstBox, hrep]
    · show upcomingGates ((lines.set i (flipFirstBox (lines.getD i ""))).drop (i + 1)) 3 = _
      rw [drop_set_succ]
    · show (upcomingGates ((lines.set i (flipFirstBox (lines.getD i ""))).drop (i + 1)) 3).length ≤ 3
      exact upcomingGates_len_le _ 3
    · show ∀ u ∈ upcomingGates ((lines.set i (flipFirstBox (lines.getD i ""))).drop (i + 1)) 3, _
      rw [drop_set_succ]
      intro u hu2
      exact upcomingGates_mem _ 3 u hu2

/-- C9 demonstration document: two open gates. -/
def c9Doc : List String := ["- [ ] first", "- [ ] second"]

/-- C9 witness: the theorem applied to a concrete two-gate document. -/
theorem C9_witness :
    isUncheckedLine (c9Doc.getD 0 "") = true ∧
    (∃ pre suf res,
      (c9Doc.getD 0 "").data = pre ++ ("- [ ]".data) ++ suf ∧
      check_next_gate c9Doc = Except.ok res ∧
      res.1 = c9Doc.set 0 (String.mk (pre ++ ("- [x]".data) ++ suf)) ∧
      res.2.1 = gateText (pyStrip (c9Doc.getD 0 "")) ∧
      res.2.2 = upcomingGates (c9Doc.drop 1) 3 ∧
      res.2.2.length ≤ 3 ∧
      (∀ u ∈ res.2.2, ∃ l' ∈ c9Doc.drop 1,
        (isUncheckedLine l' = true ∧ u = gateText (pyStrip l')) ∨
        (isEmptyFieldLine l' = true ∧ u = pyStrip l'))) :=
  ⟨by decide, (C9_check_next_gate c9Doc).2 0 (by decide) (by decide)
    (fun j hj => absurd hj (by omega))⟩

/-! ### Event log parsing and attribution (`cli.py`, `tag` command) -/

/-- Consume exactly `n` digit characters. -/
def takeDigitsExact : Nat → List Char → Option (List Char × List Char)
  | 0, cs => some ([], cs)
  | _ + 1, [] => none
  | n + 1, c :: cs =>
    if c.isDigit then
      match takeDigitsExact n cs with
      | some (ds, rest) => some (c :: ds, rest)
      | none => none
    else none

/-- Consume one expected character. -/
def expectChar (c : Char) : List Char → Option (List Char)
  | [] => none
  | x :: xs => if x == c then some xs else none

/-- The fixed timestamp shape `\d{4}-\d{2}-\d{2} \d{2}:\d{2}:\d{2}` of the
log regexes in `cli.py`; returns the timestamp characters and the rest. -/
def parseTimestamp (cs : List Char) : Option (List Char × List Char) :=
  match takeDigitsExact 4 cs with
  | none => none
  | some (d1, r1) =>
  match expectChar '-' r1 with
  | none => none
  | some r2 =>
  match takeDigitsExact 2 r2 with
  | none => none
  | some (d2, r3) =>
  match expectChar '-' r3 with
  | none => none
  | some r4 =>
  match takeDigitsExact 2 r4 with
  | none => none
  | some (d3, r5) =>
  match expectChar ' ' r5 with
  | none => none
  | some r6 =>
  match takeDigitsExact 2 r6 with
  | none => none
  | some (d4, r7) =>
  match expectChar ':' r7 with
  | none => none
  | some r8 =>
  match takeDigitsExact 2 r8 with
  | none => none
  | some (d5, r9) =>
  match expectChar ':' r9 with
  | none => none
  | some r10 =>
  match takeDigitsExact 2 r10 with
  | none => none
  | some (d6, r11) =>
    some (d1 ++ ['-'] ++ d2 ++ ['-'] ++ d3 ++ [' '] ++ d4 ++ [':'] ++ d5 ++ [':'] ++ d6, r11)

/-- The regex class `\w` (ASCII part, which is all the logs contain). -/
def isWordChar (c : Char) : Bool := isAsciiAlnum c || c == '_'

/-- The captured command group `tasks (?:work|new) .+` of the log regexes. -/
def isTasksCmd (cs : List Char) : Bool :=
  (("tasks work ".data.isPrefixOf cs) && decide (11 < cs.length)) ||
    (("tasks new ".data.isPrefixOf cs) && decide (10 < cs.length))

/-- All suffixes of the input that follow a `/`, leftmost slash first. -/
def slashSuffixList : List Char → List (List Char)
  | [] => []
  | c :: cs => (if c == '/' then [cs] else []) ++ slashSuffixList cs

/-- The effect of the optional greedy `(?:.*/)?` group before the command:
the suffix after the rightmost `/` that yields a tasks command, else the
whole remainder when it is itself a tasks command. -/
def cmdFromRest (rest : List Char) : Option (List Char) :=
  ((slashSuffixList rest).reverse.find? isTasksCmd).orElse
    (fun _ => if isTasksCmd rest then some rest else none)

/-- The per-line log regex of the `tag` and `timeline` commands
(`cli.py`): timestamp, a pipe-separated source word, and the tasks
command; unparseable lines yield `none`. -/
def parseHistLine (s : String) : Option (String × String) :=
  match parseTimestamp s.data with
  | none => none
  | some (ts, r1) =>
    match r1 with
    | ' ' :: '|' :: ' ' :: r4 =>
      let w := r4.takeWhile isWordChar
      if w.isEmpty then none
      else
        match r4.drop w.length with
        | ' ' :: '|' :: ' ' :: r8 =>
          match cmdFromRest r8 with
          | some cmd => some (String.mk ts, String.mk cmd)
          | none => none
        | _ => none
    | _ => none

/-- `re.search(r'tasks work (\d+)', cmd)`: the digit group at the leftmost
occurrence of `tasks work ` followed by a digit. -/
def findWorkNum : List Char → Option (List Char)
  | [] => none
  | c :: cs =>
    if "tasks work ".data.isPrefixOf (c :: cs) then
      let ds := ((c :: cs).drop 11).takeWhile Char.isDigit
      if ds.isEmpty then findWorkNum cs else some ds
    else findWorkNum cs

/-- Python `str.zfill(3)`. -/
def zfill3 (s : String) : String :=
  if s.length ≥ 3 then s else String.mk (List.replicate (3 - s.length) '0') ++ s

/-- One kept log line's contribution to the transition list (`tag` command):
`work done` lines make a deactivation, `tasks work N` lines an activation
with the zero-padded number, other kept lines none. -/
def toTransition (ts cmd : String) : Option (String × Option String) :=
  if isSubstr "work done".data cmd.data then some (ts, none)
  else
    match findWorkNum cmd.data with
    | some ds => some (ts, some (zfill3 (String.mk ds)))
    | none => none

/-- The seen-set toggle dedup of `cli.py`: a command text not in the set is
kept and added; one already in the set is dropped and removed. -/
def dedupGo : List (String × String) → List String → List (String × String)
  | [], _ => []
  | e :: es, seen =>
    if e.2 ∈ seen then dedupGo es (seen.erase e.2)
    else e :: dedupGo es (e.2 :: seen)

def parsedCmds (lines : List String) : List (String × String) :=
  lines.filterMap parseHistLine

def dedupedCmds (lines : List String) : List (String × String) :=
  dedupGo (parsedCmds lines) []

/-- The sorted transition list built by the `tag` command from the event
log. -/
def buildTransitions (lines : List String) : List (String × Option String) :=
  List.insertionSort (fun a b => strLe a.1 b.1 = true)
    ((dedupedCmds lines).filterMap (fun e => toTransition e.1 e.2))

/-- `bisect.bisect_right`, modelled from the stdlib contract for the sorted
lists it is applied to: the insertion point after all entries `<= x`. -/
def bisect_right (times : List String) (x : String) : Nat :=
  (times.takeWhile (fun t => strLe t x)).length

/-- `active_task_at` from the `tag` command (`cli.py`). -/
def active_task_at (trans : List (String × Option String)) (ts : String) : Option String :=
  if bisect_right (trans.map Prod.fst) ts = 0 then none
  else
    match trans.get? (bisect_right (trans.map Prod.fst) ts - 1) with
    | some t => t.2
    | none => none

/-- C1 scenario event log: activate 5, deactivate, activate 5 again with the
identical literal command text. -/
def c1Log : List String :=
  ["2024-01-01 10:00:00 | AGENT | tasks work 5",
   "2024-01-01 10:05:00 | AGENT | tasks work done",
   "2024-01-01 10:10:00 | AGENT | tasks work 5"]

/-- C1 counterexample: the claim says the message at 10:12 is attributed to
task 5, but the toggle dedup drops the second identical activate line, so
the attribution at 10:12 is none. -/
theorem C1_counterexample :
    active_task_at (buildTransitions c1Log) "2024-01-01 10:12:00" = none ∧
    active_task_at (buildTransitions c1Log) "2024-01-01 10:12:00" ≠ some "005" := by
  refine ⟨by decide, by decide⟩

/-- C1 (amended): with the two activate lines literally identical, the
dedup toggle drops the 10:10 activate, the kept transitions are the 10:00
activation of 005 and the 10:05 deactivation, and both the 10:07 and the
10:12 messages are attributed to no task. -/
theorem C1_amended :
    buildTransitions c1Log =
      [("2024-01-01 10:00:00", some "005"), ("2024-01-01 10:05:00", none)] ∧
    active_task_at (buildTransitions c1Log) "2024-01-01 10:07:00" = none ∧
    active_task_at (buildTransitions c1Log) "2024-01-01 10:12:00" = none := by
  refine ⟨by decide, by decide, by decide⟩

/-- Occurrence counter bump used in the dedup specification. -/
def bumpCnt (cnt : String → Nat) (c : String) : String → Nat :=
  fun x => if x == c then cnt x + 1 else cnt x

/-- Keep the entries whose command has so far occurred an even number of
times (so: the 1st, 3rd, 5th, ... occurrence of each command text). -/
def keepEven (cnt : String → Nat) : List (String × String) → List (String × String)
  | [] => []
  | e :: es =>
    if cnt e.2 % 2 == 0 then e :: keepEven (bumpCnt cnt e.2) es
    else keepEven (bumpCnt cnt e.2) es

theorem dedupGo_keepEven : ∀ (l : List (String × String)) (seen : List String)
    (cnt : String → Nat), seen.Nodup → (∀ c, c ∈ seen ↔ cnt c % 2 = 1) →
    dedupGo l seen = keepEven cnt l := by
  intro l
  induction l with
  | nil => intro seen cnt _ _; rfl
  | cons e es ih =>
    intro seen cnt hnd hinv
    by_cases hm : e.2 ∈ seen
    · have hodd : cnt e.2 % 2 = 1 := (hinv e.2).mp hm
      rw [dedupGo, if_pos hm, keepEven, if_neg (by simp [hodd])]
      apply ih (seen.erase e.2) (bumpCnt cnt e.2) (hnd.erase e.2)
      intro c
      by_cases hc : c = e.2
      · subst hc
        constructor
        · intro hmem
          exact absurd rfl ((List.Nodup.mem_erase_iff hnd).mp hmem).1
        · intro hparity
          exfalso
          simp only [bumpCnt, beq_self_eq_true, if_true] at hparity
          omega
      · rw [List.Nodup.mem_erase_iff hnd]
        have hbump : bumpCnt cnt e.2 c = cnt c := by
          have hcb : (c == e.2) = false := by simpa using hc
          simp [bumpCnt, hcb]
        rw [hbump]
        constructor
        · intro h2; exact (hinv c).mp h2.2
        · intro h2; exact ⟨hc, (hinv c).mpr h2⟩
    · have heven : cnt e.2 % 2 = 0 := by
        rcases Nat.mod_two_eq_zero_or_one (cnt e.2) with h0 | h1
        · exact h0
        · exact absurd ((hinv e.2).mpr h1) hm
      rw [dedupGo, if_neg hm, keepEven, if_pos (by simp [heven])]
      congr 1
      apply ih (e.2 :: seen) (bumpCnt cnt e.2) (List.Nodup.cons hm hnd)
      intro c
      by_cases hc : c = e.2
      · subst hc
        constructor
        · intro _
          simp only [bumpCnt, beq_self_eq_true, if_true]
          omega
        · intro _
          simp
      · have hbump : bumpCnt cnt e.2 c = cnt c := by
          have hcb : (c == e.2) = false := by simpa using hc
          simp [bumpCnt, hcb]
        rw [hbump, List.mem_cons]
        constructor
        · intro h2
          rcases h2 with h2 | h2
          · exact absurd h2 hc
          · exact (hinv c).mp h2
        · intro h2; exact Or.inr ((hinv c).mpr h2)

theorem enumFrom_shift : ∀ (l : List (String × String)) (n : Nat),
    l.enumFrom (n + 1) = (l.enumFrom n).map (Prod.map (· + 1) id) := by
  intro l
  induction l with
  | nil => intro n; rfl
  | cons a as ih =>
    intro n
    rw [List.enumFrom_cons, List.enumFrom_cons, List.map_cons, ih (n + 1)]
    rfl

theorem keepEven_enum : ∀ (l : List (String × String)) (cnt : String → Nat),
    keepEven cnt l = (l.enum.filter
      (fun pe => (cnt pe.2.2 + (l.take pe.1).countP (fun q => q.2 == pe.2.2)) % 2 == 0)).map
        Prod.snd := by
  intro l
  induction l with
  | nil => intro cnt; rfl
  | cons e es ih =>
    intro cnt
    rw [keepEven, List.enum_cons]
    have hshift : es.enumFrom 1 = es.enum.map (Prod.map (· + 1) id) := enumFrom_shift es 0
    rw [hshift, List.filter_cons]
    have hhead : ((cnt (0, e).2.2 +
        ((e :: es).take (0, e).1).countP (fun q => q.2 == (0, e).2.2)) % 2 == 0) =
        (cnt e.2 % 2 == 0) := by
      show ((cnt e.2 + ((e :: es).take 0).countP (fun q => q.2 == e.2)) % 2 == 0) =
        (cnt e.2 % 2 == 0)
      rw [List.take_zero, List.countP_nil, Nat.add_zero]
    rw [hhead]
    have hfilt : (es.enum.map (Prod.map (· + 1) id)).filter
        (fun pe => (cnt pe.2.2 + ((e :: es).take pe.1).countP (fun q => q.2 == pe.2.2)) % 2 == 0) =
        (es.enum.filter
          (fun pe => (bumpCnt cnt e.2 pe.2.2 + (es.take pe.1).countP
            (fun q => q.2 == pe.2.2)) % 2 == 0)).map (Prod.map (· + 1) id) := by
      rw [List.filter_map]
      congr 1
      apply List.filter_congr
      intro a _
      show ((cnt a.2.2 + ((e :: es).take (a.1 + 1)).countP (fun q => q.2 == a.2.2)) % 2 == 0) =
        ((bumpCnt cnt e.2 a.2.2 + (es.take a.1).countP (fun q => q.2 == a.2.2)) % 2 == 0)
      rw [List.take_succ_cons, List.countP_cons]
      simp only [bumpCnt]
      by_cases hc : a.2.2 = e.2
      · have h1 : (e.2 == a.2.2) = true := by simp [hc]
        have h2 : (a.2.2 == e.2) = true := by simp [hc]
        simp only [h1, h2, if_true]
        congr 1
        omega
      · have h1 : (e.2 == a.2.2) = false := by
          simp only [beq_eq_false_iff_ne, ne_eq]
          exact fun h3 => hc h3.symm
        have h2 : (a.2.2 == e.2) = false := by
          simp only [beq_eq_false_iff_ne, ne_eq]
          exact hc
        simp [h1, h2]
    by_cases hcond : cnt e.2 % 2 == 0
    · rw [if_pos hcond, if_pos hcond, List.map_cons, ih (bumpCnt cnt e.2), hfilt,
        List.map_map]
      rfl
    · rw [if_neg hcond, if_neg hcond, ih (bumpCnt cnt e.2), hfilt, List.map_map]
      rfl

/-- C6 scenario: the exact same activate line twice in a row. -/
def c6Log : List String :=
  ["2024-01-01 10:00:00 | AGENT | tasks work 007",
   "2024-01-01 10:00:00 | AGENT | tasks work 007"]

/-- C6: the dedup pass keeps exactly those parsed log entries whose command
text has occurred an even number of times before them (1st, 3rd, 5th, ...
occurrences kept; 2nd, 4th, ... dropped, per distinct command text, in log
order); and the same activate line twice in a row yields exactly one
transition. -/
theorem C6_dedup_toggle :
    (∀ lines : List String,
      dedupedCmds lines = ((parsedCmds lines).enum.filter
        (fun pe => ((parsedCmds lines).take pe.1).countP (fun q => q.2 == pe.2.2) % 2 == 0)).map
          Prod.snd) ∧
    buildTransitions c6Log = [("2024-01-01 10:00:00", some "007")] := by
  constructor
  · intro lines
    rw [dedupedCmds, dedupGo_keepEven _ [] (fun _ => 0) (by simp) (by simp),
      keepEven_enum]
    congr 1
    apply List.filter_congr
    intro a _
    simp
  · decide

/-- The specification-side reading of C7: the rightmost transition whose
timestamp is at or before `ts`. -/
def rightmostLE (trans : List (String × Option String)) (ts : String) :
    Option (String × Option String) :=
  (trans.filter (fun t => strLe t.1 ts)).getLast?

theorem sorted_filter_eq_takeWhile :
    ∀ trans : List (String × Option String),
      List.Sorted (fun a b => strLe a.1 b.1 = true) trans → ∀ ts : String,
      trans.filter (fun t => strLe t.1 ts) = trans.takeWhile (fun t => strLe t.1 ts) := by
  intro trans
  induction trans with
  | nil => intro _ _; rfl
  | cons x xs ih =>
    intro hs ts
    by_cases hx : strLe x.1 ts
    · rw [List.filter_cons, List.takeWhile_cons, if_pos (by simpa using hx)]
      simp [hx, ih hs.of_cons ts]
    · rw [List.filter_cons, List.takeWhile_cons]
      have hx2 : strLe x.1 ts = false := Bool.eq_false_iff.mpr hx
      rw [hx2]
      simp only [Bool.false_eq_true, if_false]
      rw [List.filter_eq_nil.mpr]
      intro y hy
      intro hyts
      have hxy : strLe x.1 y.1 = true := List.rel_of_sorted_cons hs y hy
      exact hx (strLe_trans _ _ _ hxy hyts)

theorem takeWhile_map_fst : ∀ (trans : List (String × Option String)) (ts : String),
    (trans.map Prod.fst).takeWhile (fun t => strLe t ts) =
      (trans.takeWhile (fun t => strLe t.1 ts)).map Prod.fst := by
  intro trans
  induction trans with
  | nil => intro _; rfl
  | cons x xs ih =>
    intro ts
    rw [List.map_cons, List.takeWhile_cons, List.takeWhile_cons]
    by_cases hx : strLe x.1 ts
    · simp only [hx, if_true, List.map_cons, ih ts]
    · have hx2 : strLe x.1 ts = false := Bool.eq_false_iff.mpr hx
      simp [hx2]

theorem active_eq_rightmost (trans : List (String × Option String))
    (hs : List.Sorted (fun a b => strLe a.1 b.1 = true) trans) (ts : String) :
    active_task_at trans ts = (rightmostLE trans ts).bind (fun t => t.2) := by
  have hfil := sorted_filter_eq_takeWhile trans hs ts
  have hmap := takeWhile_map_fst trans ts
  have hlen : bisect_right (trans.map Prod.fst) ts =
      (trans.takeWhile (fun t => strLe t.1 ts)).length := by
    rw [bisect_right, hmap, List.length_map]
  rw [active_task_at, hlen, rightmostLE, hfil]
  by_cases hk : (trans.takeWhile (fun t => strLe t.1 ts)).length = 0
  · rw [if_pos hk, List.length_eq_zero.mp hk]
    rfl
  · rw [if_neg hk]
    obtain ⟨m, hm⟩ : ∃ m, (trans.takeWhile (fun t => strLe t.1 ts)).length = m + 1 :=
      ⟨(trans.takeWhile (fun t => strLe t.1 ts)).length - 1, by omega⟩
    have hmlt : m < (trans.takeWhile (fun t => strLe t.1 ts)).length := by omega
    have hget : trans.get? ((trans.takeWhile (fun t => strLe t.1 ts)).length - 1) =
        (trans.takeWhile (fun t => strLe t.1 ts)).get? m := by
      rw [hm, Nat.add_sub_cancel]
      conv_lhs =>
        rw [← List.takeWhile_append_dropWhile (fun t => strLe t.1 ts) trans]
      exact List.get?_append hmlt
    have hlast : (trans.takeWhile (fun t => strLe t.1 ts)).getLast? =
        (trans.takeWhile (fun t => strLe t.1 ts)).get? m := by
      rw [List.getLast?_eq_get?, hm, Nat.add_sub_cancel]
    rw [hlast.trans hget.symm]
    cases trans.get? ((trans.takeWhile (fun t => strLe t.1 ts)).length - 1) with
    | none => rfl
    | some x => rfl

theorem filter_eq_take (p : (String × Option String) → Bool) :
    ∀ (l : List (String × Option String)) (i : Nat), i < l.length →
      (∀ k : Nat, ∀ hk : k < l.length, k ≤ i → p (l.get ⟨k, hk⟩) = true) →
      (∀ k : Nat, ∀ hk : k < l.length, i < k → p (l.get ⟨k, hk⟩) = false) →
      l.filter p = l.take (i + 1) := by
  intro l
  induction l with
  | nil => intro i hi; simp at hi
  | cons x xs ih =>
    intro i hi hall hfail
    have hx : p x = true := hall 0 (by simp) (Nat.zero_le _)
    cases i with
    | zero =>
      rw [List.filter_cons, if_pos (by simpa using hx)]
      rw [List.filter_eq_nil.mpr]
      · rfl
      · intro y hy
        obtain ⟨⟨k, hk⟩, rfl⟩ := List.mem_iff_get.mp hy
        have h2 := hfail (k + 1) (by simpa using Nat.succ_lt_succ hk) (Nat.succ_pos _)
        simpa using h2
    | succ i' =>
      rw [List.filter_cons, if_pos (by simpa using hx), List.take_succ_cons]
      congr 1
      apply ih i' (by simpa using hi)
      · intro k hk hki
        have := hall (k + 1) (by simpa using Nat.succ_lt_succ hk) (Nat.succ_le_succ hki)
        simpa [List.get] using this
      · intro k hk hik
        have := hfail (k + 1) (by simpa using Nat.succ_lt_succ hk) (Nat.succ_lt_succ hik)
        simpa [List.get] using this

/-- C7: over a sorted transition list, `active_task_at ts` returns the
associated id (possibly none) of the rightmost transition whose timestamp is
at or before `ts`; it returns none when every transition is after `ts`; and
for a timestamp at or after transition `i` and before any later transition
the result is exactly transition `i`'s id. -/
theorem C7_active_task_at : ∀ trans : List (String × Option String),
    List.Sorted (fun a b => strLe a.1 b.1 = true) trans →
    ∀ ts : String,
      active_task_at trans ts = (rightmostLE trans ts).bind (fun t => t.2) ∧
      ((∀ t ∈ trans, strLe t.1 ts = false) → active_task_at trans ts = none) ∧
      (∀ i : Nat, ∀ h : i < trans.length, strLe (trans.get ⟨i, h⟩).1 ts = true →
        (∀ j : Nat, ∀ hj : j < trans.length, i < j → strLe (trans.get ⟨j, hj⟩).1 ts = false) →
        active_task_at trans ts = (trans.get ⟨i, h⟩).2) := by
  intro trans hs ts
  refine ⟨active_eq_rightmost trans hs ts, ?_, ?_⟩
  · intro hall
    rw [active_eq_rightmost trans hs ts, rightmostLE, List.filter_eq_nil.mpr]
    · rfl
    · intro t ht
      simp [hall t ht]
  · intro i h hi hafter
    have hall : ∀ k : Nat, ∀ hk : k < trans.length, k ≤ i →
        strLe (trans.get ⟨k, hk⟩).1 ts = true := by
      intro k hk hki
      rcases Nat.lt_or_ge k i with hlt | hge
      · have hrel : strLe (trans.get ⟨k, hk⟩).1 (trans.get ⟨i, h⟩).1 = true :=
          List.Sorted.rel_get_of_lt hs (Fin.mk_lt_mk.mpr hlt)
        exact strLe_trans _ _ _ hrel hi
      · have hkeq : k = i := Nat.le_antisymm hki hge
        subst hkeq
        exact hi
    rw [active_eq_rightmost trans hs ts, rightmostLE,
      filter_eq_take (fun t => strLe t.1 ts) trans i h hall hafter]
    have hgl : (trans.take (i + 1)).getLast? = some (trans.get ⟨i, h⟩) := by
      rw [List.getLast?_eq_get?]
      have hlen2 : (trans.take (i + 1)).length = i + 1 := by
        rw [List.length_take]
        omega
      rw [hlen2, Nat.add_sub_cancel, List.get?_take (Nat.lt_succ_self i),
        List.get?_eq_get h]
    rw [hgl]
    rfl

/-- C7 witness transition list. -/
def c7Trans : List (String × Option String) :=
  [("2024-01-01 10:00:00", some "005"), ("2024-01-01 10:05:00", none)]

/-- C7 witness: the theorem applied to a concrete sorted transition list and
timestamp. -/
theorem C7_witness :
    List.Sorted (fun a b : String × Option String => strLe a.1 b.1 = true) c7Trans ∧
    (active_task_at c7Trans "2024-01-01 10:03:00" =
        (rightmostLE c7Trans "2024-01-01 10:03:00").bind (fun t => t.2) ∧
      ((∀ t ∈ c7Trans, strLe t.1 "2024-01-01 10:03:00" = false) →
        active_task_at c7Trans "2024-01-01 10:03:00" = none) ∧
      (∀ i : Nat, ∀ h : i < c7Trans.length,
        strLe (c7Trans.get ⟨i, h⟩).1 "2024-01-01 10:03:00" = true →
        (∀ j : Nat, ∀ hj : j < c7Trans.length, i < j →
          strLe (c7Trans.get ⟨j, hj⟩).1 "2024-01-01 10:03:00" = false) →
        active_task_at c7Trans "2024-01-01 10:03:00" = (c7Trans.get ⟨i, h⟩).2)) :=
  ⟨by decide, C7_active_task_at c7Trans (by decide) "2024-01-01 10:03:00"⟩

/-! ### Activation and deactivation (`cli.py`, `work` command) -/

/-- Rewrite the line after the first `## Status` heading that is not the
last line (the loop in the `work` command of `cli.py`), leaving the document
unchanged when no such heading exists. -/
def setStatusTo (nl : String) : List String → List String
  | [] => []
  | l :: ls =>
    if pyStrip l == "## Status" then
      match ls with
      | [] => l :: ls
      | _ :: rest => l :: nl :: rest
    else l :: setStatusTo nl ls

/-- Outcomes of `tasks work <num>` (`cli.py`). -/
inductive WorkOutcome where
  | notFound : WorkOutcome
  | noOpenGates : WorkOutcome
  | reopened : String → WorkOutcome
  | activated : String → WorkOutcome
deriving DecidableEq

/-- Apply `f` to the document of the first task matching `p` (the single
`matches[0]` write of `cli.py`). -/
def updFirst (p : (String × List String) → Bool) (f : List String → List String) :
    List (String × List String) → List (String × List String)
  | [] => []
  | t :: ts => if p t then (t.1, f t.2) :: ts else t :: updFirst p f ts

/-- `tasks work <num>` activation path (`cli.py`): first try
`_find_active_task` with the number as name filter; otherwise glob for a
directory with that numeric prefix; a done match is reopened (status reset
to `in_progress`), a not-done match with no open gates is an error, no match
is not-found. -/
def work_activate (tasks : List (String × List String)) (num : String) :
    WorkOutcome × List (String × List String) :=
  match _find_active_task tasks num with
  | some t => (WorkOutcome.activated t.1, tasks)
  | none =>
    match tasks.find? (fun t => strStarts t.1 (num ++ "-")) with
    | none => (WorkOutcome.notFound, tasks)
    | some t =>
      if _is_done t.2 then
        (WorkOutcome.reopened t.1,
          updFirst (fun x => strStarts x.1 (num ++ "-")) (setStatusTo "in_progress") tasks)
      else (WorkOutcome.noOpenGates, tasks)

/-- C4 counterexample store: a directory matching the requested number whose
status is done. -/
def c4Store : List (String × List String) := [("005-x", ["## Status", "done", "- [ ] g"])]

/-- C4 counterexample: the claim says a matching done task yields a distinct
`AlreadyDone` error outcome; the code instead reopens it (status reset to
`in_progress`) and proceeds with activation — no error outcome occurs. -/
theorem C4_counterexample :
    (work_activate c4Store "005").1 = WorkOutcome.reopened "005-x" ∧
    (work_activate c4Store "005").1 ≠ WorkOutcome.notFound ∧
    (work_activate c4Store "005").1 ≠ WorkOutcome.noOpenGates ∧
    _extract_status ((work_activate c4Store "005").2.getD 0 ("", [])).2 = "in_progress" := by
  refine ⟨by decide, by decide, by decide, by decide⟩

theorem isSubstr_nil_left : ∀ hay : List Char, isSubstr [] hay = true := by
  intro hay
  unfold isSubstr
  rw [List.any_eq_true]
  refine ⟨hay, (List.mem_tails _ _).mpr (List.suffix_refl hay), ?_⟩
  cases hay <;> rfl

theorem isSubstr_of_starts (d num : String) (h : strStarts d (num ++ "-") = true) :
    isSubstr num.data d.data = true := by
  apply isSubstr_of_isInfix
  have hpre : (num ++ "-").data <+: d.data := List.isPrefixOf_iff_prefix.mp h
  have hnum : num.data <+: (num ++ "-").data := by
    refine ⟨['-'], ?_⟩
    rfl
  exact (hnum.trans hpre).isInfix

theorem find_active_single (d : String) (doc : List String) (num : String) :
    _find_active_task [(d, doc)] num =
      (if taskEligible num (d, doc) then some (d, doc) else none) := by
  unfold _find_active_task
  have hsort : List.insertionSort (fun a b => strLe a.1 b.1 = true)
      [(d, doc)] = [(d, doc)] := rfl
  rw [hsort]
  cases h : taskEligible num (d, doc) <;> simp [List.find?, h]

/-- C4 (amended): for a store with a single task, an identifier matching no
directory yields `notFound`; a matching directory that is done is reopened;
a matching directory that is not done but has no open gates yields
`noOpenGates` — and the three outcomes are pairwise distinct. -/
theorem C4_amended : ∀ (d : String) (doc : List String) (num : String),
    ((isSubstr num.data d.data = false) →
      (work_activate [(d, doc)] num).1 = WorkOutcome.notFound) ∧
    (strStarts d (num ++ "-") = true → _is_done doc = true →
      (work_activate [(d, doc)] num).1 = WorkOutcome.reopened d) ∧
    (strStarts d (num ++ "-") = true → _is_done doc = false →
      strStarts (_extract_head_position doc) "(" = true →
      (work_activate [(d, doc)] num).1 = WorkOutcome.noOpenGates) ∧
    (WorkOutcome.notFound ≠ WorkOutcome.noOpenGates ∧
      WorkOutcome.notFound ≠ WorkOutcome.reopened d ∧
      WorkOutcome.noOpenGates ≠ WorkOutcome.reopened d) := by
  intro d doc num
  refine ⟨?_, ?_, ?_, by simp, by simp, by simp⟩
  · intro hsub
    have hne : (num == "") = false := by
      cases h : (num == "") with
      | true =>
        exfalso
        have : num = "" := by simpa using h
        subst this
        rw [isSubstr_nil_left] at hsub
        cases hsub
      | false => rfl
    have helig : taskEligible num (d, doc) = false := by
      rw [taskEligible, hne, hsub]
      rfl
    have hglob : strStarts d (num ++ "-") = false := by
      cases h : strStarts d (num ++ "-") with
      | true =>
        exfalso
        rw [isSubstr_of_starts d num h] at hsub
        cases hsub
      | false => rfl
    rw [work_activate, find_active_single, if_neg (by simp [helig])]
    simp [List.find?, hglob]
  · intro hstart hdone
    have helig : taskEligible num (d, doc) = false := by
      rw [taskEligible, hdone]
      simp
    rw [work_activate, find_active_single, if_neg (by simp [helig])]
    simp [List.find?, hstart, hdone]
  · intro hstart hdone hparen
    have helig : taskEligible num (d, doc) = false := by
      rw [taskEligible, hdone, hparen]
      simp
    rw [work_activate, find_active_single, if_neg (by simp [helig])]
    simp [List.find?, hstart, hdone]

/-- C4 witness: the amended theorem applied to a concrete store holding one
done task with a matching directory name. -/
theorem C4_witness :
    strStarts "007-demo" ("007" ++ "-") = true ∧
    _is_done ["## Status", "done"] = true ∧
    (work_activate [("007-demo", ["## Status", "done"])] "007").1 =
      WorkOutcome.reopened "007-demo" :=
  ⟨by decide, by decide,
    (C4_amended "007-demo" ["## Status", "done"] "007").2.1 (by decide) (by decide)⟩

/-- Project state: the task store plus the session pointer files. -/
structure ProjState where
  tasks : List (String × List String)
  stateFiles : List (String × String)

/-- A file name of pointer shape: the unkeyed `current_state` or any
session-keyed `current_state.<token>` (the deletion candidates of the
`work done` branch in `cli.py`). -/
def isPointerName (n : String) : Bool :=
  n == "current_state" || strStarts n "current_state."

/-- The pointer files consulted by `work done`, session-keyed first when a
session id is present, then the unkeyed fallback. -/
def pointerCandidates (sessionId : String) : List String :=
  (if sessionId == "" then [] else ["current_state." ++ sessionId]) ++ ["current_state"]

/-- Read the first existing candidate pointer file, stripped. -/
def readFirstPointer (files : List (String × String)) : List String → Option String
  | [] => none
  | n :: ns =>
    match files.find? (fun f => f.1 == n) with
    | some f => some (pyStrip f.2)
    | none => readFirstPointer files ns

/-- `tasks work done` (`cli.py`): find the active task from the pointer
files; if found, rewrite the status of the first matching task directory to
`done` and delete every pointer file whose stripped content equals the
deactivated identifier; otherwise report no active task and change
nothing. -/
def work_done (st : ProjState) (sessionId : String) : ProjState × String :=
  match readFirstPointer st.stateFiles (pointerCandidates sessionId) with
  | none => (st, "No active task.")
  | some prev =>
    if prev == "" then (st, "No active task.")
    else
      (ProjState.mk
        (match st.tasks.find? (fun t => strStarts t.1 (prev ++ "-")) with
         | some _ => updFirst (fun t => strStarts t.1 (prev ++ "-")) (setStatusTo "done") st.tasks
         | none => st.tasks)
        (st.stateFiles.filter (fun f => !(isPointerName f.1 && (pyStrip f.2 == prev)))),
       "Task " ++ prev ++ " done.")

/-- C5 counterexample state: the task document has two status headings, the
last of which stays `pending`. -/
def c5Store : ProjState :=
  ProjState.mk [("001-x", ["## Status", "pending", "## Status", "pending"])]
    [("current_state", "001\n")]

/-- C5 counterexample: deactivation rewrites the line after the first status
heading, but the derived status reads the line after the last heading, so
the document's derived status is not in the done family even though the
operation reported success. -/
theorem C5_counterexample :
    (work_done c5Store "").2 = "Task 001 done." ∧
    ((work_done c5Store "").1.tasks.getD 0 ("", [])).2 =
      ["## Status", "done", "## Status", "pending"] ∧
    _is_done ((work_done c5Store "").1.tasks.getD 0 ("", [])).2 = false := by
  refine ⟨by decide, by decide, by decide⟩

theorem lastStatusIdx_none : ∀ xs : List String,
    (∀ l ∈ xs, (pyStrip l == "## Status") = false) → lastStatusIdx xs = none := by
  intro xs
  induction xs with
  | nil => intro _; rfl
  | cons x xs ih =>
    intro h
    rw [lastStatusIdx, ih (fun l hl => h l (by simp [hl])), h x (by simp)]
    rfl

theorem lastStatusIdx_append : ∀ xs ys : List String,
    lastStatusIdx (xs ++ ys) =
      (match lastStatusIdx ys with
       | some j => some (xs.length + j)
       | none => lastStatusIdx xs) := by
  intro xs ys
  induction xs with
  | nil =>
    rw [List.nil_append]
    cases h : lastStatusIdx ys with
    | none => rfl
    | some j => simp
  | cons x xs ih =>
    rw [List.cons_append, lastStatusIdx, ih]
    cases h : lastStatusIdx ys with
    | none =>
      simp only [h]
      rw [lastStatusIdx]
    | some j =>
      simp only [h, List.length_cons]
      congr 1
      omega

theorem getD_append_len : ∀ (xs rest : List String) (n : Nat),
    (xs ++ rest).getD (xs.length + n) "" = rest.getD n "" := by
  intro xs
  induction xs with
  | nil => intro rest n; simp
  | cons x xs ih =>
    intro rest n
    have : (x :: xs).length + n = (xs.length + n) + 1 := by
      simp [List.length_cons]
      omega
    rw [this, List.cons_append]
    exact ih rest n

theorem extract_status_decomp (pre post : List String) (sLine nl : String)
    (hpre : ∀ l ∈ pre, (pyStrip l == "## Status") = false)
    (hs : (pyStrip sLine == "## Status") = true)
    (hnl : (pyStrip nl == "## Status") = false)
    (hpost : ∀ l ∈ post, (pyStrip l == "## Status") = false) :
    _extract_status (pre ++ sLine :: nl :: post) = pyStrip nl := by
  have htail : lastStatusIdx (sLine :: nl :: post) = some 0 := by
    rw [lastStatusIdx]
    rw [show lastStatusIdx (nl :: post) = none by
      apply lastStatusIdx_none
      intro l hl
      rcases List.mem_cons.mp hl with rfl | hl2
      · exact hnl
      · exact hpost l hl2]
    rw [hs]
    rfl
  have hidx : lastStatusIdx (pre ++ sLine :: nl :: post) = some pre.length := by
    rw [lastStatusIdx_append, htail]
    simp
  rw [_extract_status, hidx]
  have hlen : pre.length + 1 < (pre ++ sLine :: nl :: post).length := by
    rw [List.length_append]
    simp only [List.length_cons]
    omega
  show (if pre.length + 1 < (pre ++ sLine :: nl :: post).length
    then pyStrip ((pre ++ sLine :: nl :: post).getD (pre.length + 1) "") else "unknown") =
    pyStrip nl
  rw [if_pos hlen, getD_append_len pre (sLine :: nl :: post) 1]
  rfl

theorem setStatusTo_cons (nl l : String) (ls : List String) :
    setStatusTo nl (l :: ls) =
      if pyStrip l == "## Status" then
        (match ls with
         | [] => l :: ls
         | _ :: rest => l :: nl :: rest)
      else l :: setStatusTo nl ls := rfl

theorem setStatusTo_decomp (nl : String) : ∀ (pre : List String) (sLine aLine : String)
    (post : List String),
    (∀ l ∈ pre, (pyStrip l == "## Status") = false) →
    (pyStrip sLine == "## Status") = true →
    setStatusTo nl (pre ++ sLine :: aLine :: post) = pre ++ sLine :: nl :: post := by
  intro pre
  induction pre with
  | nil =>
    intro sLine aLine post _ hs
    rw [List.nil_append, setStatusTo_cons, if_pos hs]
    rfl
  | cons p ps ih =>
    intro sLine aLine post hpre hs
    rw [List.cons_append, setStatusTo_cons, if_neg (by simp [hpre p (by simp)]),
      ih sLine aLine post (fun l hl => hpre l (by simp [hl])) hs]
    rfl

theorem find?_updFirst (q : String → Bool) (f : List String → List String) :
    ∀ (l : List (String × List String)) (t : String × List String),
      l.find? (fun x => q x.1) = some t →
      (updFirst (fun x => q x.1) f l).find? (fun x => q x.1) = some (t.1, f t.2) := by
  intro l
  induction l with
  | nil => intro t ht; simp [List.find?] at ht
  | cons x xs ih =>
    intro t ht
    cases hx : q x.1 with
    | true =>
      rw [List.find?, hx] at ht
      injection ht with ht
      subst ht
      rw [updFirst, if_pos hx, List.find?]
      simp [hx]
    | false =>
      rw [List.find?, hx] at ht
      rw [updFirst, if_neg (by simp [hx]), List.find?, hx]
      exact ih t ht

/-- C5 (amended): when a pointer file resolves to identifier `prev` and the
matching task document has exactly one status heading (not as its last
line), deactivation reports success, leaves the matched document with
derived status `done`, and deletes exactly the pointer files whose stripped
content equals `prev`; when no pointer file resolves, it reports no active
task and changes nothing. -/
theorem C5_amended :
    (∀ (st : ProjState) (sessionId : String),
      readFirstPointer st.stateFiles (pointerCandidates sessionId) = none →
      work_done st sessionId = (st, "No active task.")) ∧
    (∀ (st : ProjState) (sessionId prev d : String) (pre post : List String)
      (sLine aLine : String),
      readFirstPointer st.stateFiles (pointerCandidates sessionId) = some prev →
      prev ≠ "" →
      st.tasks.find? (fun t => strStarts t.1 (prev ++ "-")) =
        some (d, pre ++ sLine :: aLine :: post) →
      (∀ l ∈ pre, (pyStrip l == "## Status") = false) →
      (pyStrip sLine == "## Status") = true →
      (∀ l ∈ post, (pyStrip l == "## Status") = false) →
      ((work_done st sessionId).2 = "Task " ++ prev ++ " done." ∧
        (work_done st sessionId).1.tasks.find? (fun t => strStarts t.1 (prev ++ "-")) =
          some (d, pre ++ sLine :: "done" :: post) ∧
        _is_done (pre ++ sLine :: "done" :: post) = true ∧
        (∀ f ∈ (work_done st sessionId).1.stateFiles,
          ¬(isPointerName f.1 = true ∧ pyStrip f.2 = prev)) ∧
        (∀ f ∈ st.stateFiles, isPointerName f.1 = false ∨ pyStrip f.2 ≠ prev →
          f ∈ (work_done st sessionId).1.stateFiles))) := by
  constructor
  · intro st sessionId hptr
    rw [work_done, hptr]
  · intro st sid prev d pre post sLine aLine hptr hne hfind hpre hs hpost
    have hprevb : (prev == "") = false := by simpa using hne
    refine ⟨?_, ?_, ?_, ?_, ?_⟩
    · simp only [work_done, hptr, hprevb, Bool.false_eq_true, if_false, hfind]
    · simp only [work_done, hptr, hprevb, Bool.false_eq_true, if_false, hfind]
      have h2 := find?_updFirst (fun n => strStarts n (prev ++ "-")) (setStatusTo "done")
        st.tasks (d, pre ++ sLine :: aLine :: post) hfind
      rw [setStatusTo_decomp "done" pre sLine aLine post hpre hs] at h2
      exact h2
    · unfold _is_done
      rw [extract_status_decomp pre post sLine "done" hpre hs (by decide) hpost]
      decide
    · simp only [work_done, hptr, hprevb, Bool.false_eq_true, if_false, hfind]
      intro f hf hcontr
      have hmem := (List.mem_filter.mp hf).2
      rw [Bool.not_eq_true'] at hmem
      have hb : (isPointerName f.1 && (pyStrip f.2 == prev)) = true := by
        rw [hcontr.1]
        simp [hcontr.2]
      rw [hb] at hmem
      cases hmem
    · simp only [work_done, hptr, hprevb, Bool.false_eq_true, if_false, hfind]
      intro f hf hor
      apply List.mem_filter.mpr
      refine ⟨hf, ?_⟩
      rcases hor with h1 | h2
      · simp [h1]
      · have hb : (pyStrip f.2 == prev) = false := by simpa using h2
        simp [hb]

/-- C5 witness state: one task with a single status heading, three pointer
files of which two point at it. -/
def c5WitStore : ProjState :=
  ProjState.mk [("001-x", ["## Status", "pending", "- [ ] g"])]
    [("current_state", "001\n"), ("current_state.abc", "001\n"),
     ("current_state.keep", "002\n")]

/-- C5 witness: the amended theorem applied to a concrete state. -/
theorem C5_witness :
    readFirstPointer c5WitStore.stateFiles (pointerCandidates "") = some "001" ∧
    ((work_done c5WitStore "").2 = "Task " ++ "001" ++ " done." ∧
      (work_done c5WitStore "").1.tasks.find? (fun t => strStarts t.1 ("001" ++ "-")) =
        some ("001-x", [] ++ "## Status" :: "done" :: ["- [ ] g"]) ∧
      _is_done ([] ++ "## Status" :: "done" :: ["- [ ] g"]) = true ∧
      (∀ f ∈ (work_done c5WitStore "").1.stateFiles,
        ¬(isPointerName f.1 = true ∧ pyStrip f.2 = "001")) ∧
      (∀ f ∈ c5WitStore.stateFiles, isPointerName f.1 = false ∨ pyStrip f.2 ≠ "001" →
        f ∈ (work_done c5WitStore "").1.stateFiles)) :=
  ⟨by decide, C5_amended.2 c5WitStore "" "001" "001-x" [] ["- [ ] g"] "## Status" "pending"
    (by decide) (by decide) (by decide) (by decide) (by decide) (by decide)⟩

/-! ### Transcript annotation (`cli.py`, `tag` command) -/

/-- The marker-line regex `^<!--\s*/?T\d+\s*-->$` of the `tag` command,
applied to a stripped line. -/
def isTagLine (s : String) : Bool :=
  match s.data with
  | '<' :: '!' :: '-' :: '-' :: rest =>
    let r1 := rest.dropWhile isPySpace
    let r2 := match r1 with
      | '/' :: t => t
      | _ => r1
    match r2 with
    | 'T' :: r3 =>
      let ds := r3.takeWhile Char.isDigit
      if ds.isEmpty then false
      else ((r3.drop ds.length).dropWhile isPySpace) == ['-', '-', '>']
    | _ => false
  | _ => false

/-- The message-header regex of the `tag` command, applied to a stripped
line; yields the header's timestamp. -/
def parseMsgHeaderTs (s : String) : Option String :=
  match s.data with
  | '*' :: '*' :: '[' :: 'M' :: rest =>
    let ds := rest.takeWhile Char.isDigit
    if ds.isEmpty then none
    else
      match rest.drop ds.length with
      | ']' :: '*' :: '*' :: ' ' :: '[' :: rest2 =>
        match parseTimestamp rest2 with
        | some (ts, rest3) =>
          match rest3 with
          | ' ' :: 'U' :: 'T' :: 'C' :: ']' :: _ => some (String.mk ts)
          | _ => none
        | none => none
      | _ => none
  | _ => none

/-- The marker lines (each followed by a blank line) emitted when the
attributed task changes from `cur` to `t`. -/
def tagEmit (cur t : Option String) : List String :=
  if t = cur then []
  else
    (match cur with
     | some c => ["<!-- /T" ++ c ++ " -->", ""]
     | none => []) ++
    (match t with
     | some n => ["<!-- T" ++ n ++ " -->", ""]
     | none => [])

/-- The line-rewriting loop of the `tag` command: strip existing marker
lines, emit close/open markers at message headers where the attributed task
changes, and close a still-open span at the end of the transcript. -/
def tagGo (A : String → Option String) : Option String → List String → List String
  | cur, [] =>
    match cur with
    | some c => ["", "<!-- /T" ++ c ++ " -->"]
    | none => []
  | cur, l :: ls =>
    if isTagLine (pyStrip l) then tagGo A cur ls
    else
      match parseMsgHeaderTs (pyStrip l) with
      | some ts => tagEmit cur (A ts) ++ l :: tagGo A (A ts) ls
      | none => l :: tagGo A cur ls

/-- The whole annotation pass: the transcript rewritten against the
transition list. -/
def tagPass (transitions : List (String × Option String)) (lines : List String) :
    List String :=
  tagGo (active_task_at transitions) none lines

/-- A task id as it appears inside markers: nonempty, all digits. -/
def goodId (n : String) : Bool := (!(n.data.isEmpty)) && n.data.all Char.isDigit

/-- Lines that are not blank (the inserted padding is exactly the blank
lines). -/
def filterNB (ls : List String) : List String := ls.filter (fun l => !(l == ""))

/-- C2 scenario: a one-line event log and a two-line transcript. -/
def c2Log : List String := ["2024-01-01 10:00:00 | AGENT | tasks work 5"]

def c2Chat : List String := ["**[M1]** [2024-01-01 10:01:00 UTC]", "hello"]

/-- C2 counterexample: running the annotation pass on its own output does
not reproduce it byte for byte — the blank padding lines inserted next to
the markers are not stripped on the second run, which therefore adds more
blank lines. -/
theorem C2_counterexample :
    tagPass (buildTransitions c2Log) (tagPass (buildTransitions c2Log) c2Chat) ≠
      tagPass (buildTransitions c2Log) c2Chat := by decide

theorem tagGo_nil (A : String → Option String) (cur : Option String) :
    tagGo A cur [] =
      (match cur with
       | some c => ["", "<!-- /T" ++ c ++ " -->"]
       | none => []) := rfl

theorem tagGo_cons (A : String → Option String) (cur : Option String) (l : String)
    (ls : List String) :
    tagGo A cur (l :: ls) =
      (if isTagLine (pyStrip l) then tagGo A cur ls
       else
        match parseMsgHeaderTs (pyStrip l) with
        | some ts => tagEmit cur (A ts) ++ l :: tagGo A (A ts) ls
        | none => l :: tagGo A cur ls) := rfl

theorem filterNB_cons (l : String) (ls : List String) :
    filterNB (l :: ls) = if l == "" then filterNB ls else l :: filterNB ls := by
  rw [filterNB, List.filter_cons]
  cases h : (l == "") with
  | true => simp [filterNB, h]
  | false => simp [filterNB, h]

theorem closeTag_data (c : String) :
    ("<!-- /T" ++ c ++ " -->").data =
      '<' :: '!' :: '-' :: '-' :: ' ' :: '/' :: 'T' :: (c.data ++ [' ', '-', '-', '>']) := by
  rw [String.data_append _ _, String.data_append _ _]
  show (['<', '!', '-', '-', ' ', '/', 'T'] ++ c.data) ++ [' ', '-', '-', '>'] = _
  simp

theorem openTag_data (n : String) :
    ("<!-- T" ++ n ++ " -->").data =
      '<' :: '!' :: '-' :: '-' :: ' ' :: 'T' :: (n.data ++ [' ', '-', '-', '>']) := by
  rw [String.data_append _ _, String.data_append _ _]
  show (['<', '!', '-', '-', ' ', 'T'] ++ n.data) ++ [' ', '-', '-', '>'] = _
  simp

theorem closeTag_ne_blank (c : String) : (("<!-- /T" ++ c ++ " -->") == "") = false := by
  rw [beq_eq_false_iff_ne]
  intro h
  have hd := closeTag_data c
  rw [h] at hd
  simp at hd

theorem openTag_ne_blank (n : String) : (("<!-- T" ++ n ++ " -->") == "") = false := by
  rw [beq_eq_false_iff_ne]
  intro h
  have hd := openTag_data n
  rw [h] at hd
  simp at hd

theorem takeWhile_append_stop (p : Char → Bool) (xs : List Char) (y : Char) (ys : List Char)
    (hxs : ∀ x ∈ xs, p x = true) (hy : p y = false) :
    (xs ++ y :: ys).takeWhile p = xs := by
  induction xs with
  | nil => simp [List.takeWhile_cons, hy]
  | cons a as ih =>
    rw [List.cons_append, List.takeWhile_cons, hxs a (by simp),
      ih (fun x hx => hxs x (by simp [hx]))]
    simp

theorem pyStripData_wrap (a b : Char) (mid : List Char)
    (ha : isPySpace a = false) (hb : isPySpace b = false) :
    pyStripData (a :: (mid ++ [b])) = a :: (mid ++ [b]) := by
  unfold pyStripData
  rw [List.dropWhile_cons, ha]
  simp only [Bool.false_eq_true, if_false]
  rw [show (a :: (mid ++ [b])).reverse = b :: (mid.reverse ++ [a]) from by simp]
  rw [List.dropWhile_cons, hb]
  simp

theorem pyStrip_closeTag (c : String) :
    pyStrip ("<!-- /T" ++ c ++ " -->") = "<!-- /T" ++ c ++ " -->" := by
  apply String.ext
  show pyStripData ("<!-- /T" ++ c ++ " -->").data = _
  rw [closeTag_data]
  rw [show ('<' :: '!' :: '-' :: '-' :: ' ' :: '/' :: 'T' :: (c.data ++ [' ', '-', '-', '>'])) =
    '<' :: (('!' :: '-' :: '-' :: ' ' :: '/' :: 'T' :: (c.data ++ [' ', '-', '-'])) ++ ['>'])
    from by simp]
  rw [pyStripData_wrap '<' '>' _ (by decide) (by decide)]

theorem pyStrip_openTag (n : String) :
    pyStrip ("<!-- T" ++ n ++ " -->") = "<!-- T" ++ n ++ " -->" := by
  apply String.ext
  show pyStripData ("<!-- T" ++ n ++ " -->").data = _
  rw [openTag_data]
  rw [show ('<' :: '!' :: '-' :: '-' :: ' ' :: 'T' :: (n.data ++ [' ', '-', '-', '>'])) =
    '<' :: (('!' :: '-' :: '-' :: ' ' :: 'T' :: (n.data ++ [' ', '-', '-'])) ++ ['>'])
    from by simp]
  rw [pyStripData_wrap '<' '>' _ (by decide) (by decide)]

theorem isTagLine_strip_close (c : String) (hne : c.data ≠ [])
    (hdig : ∀ x ∈ c.data, Char.isDigit x = true) :
    isTagLine (pyStrip ("<!-- /T" ++ c ++ " -->")) = true := by
  rw [pyStrip_closeTag]
  unfold isTagLine
  rw [closeTag_data]
  show (if ((c.data ++ [' ', '-', '-', '>']).takeWhile Char.isDigit).isEmpty then false
    else (((c.data ++ [' ', '-', '-', '>']).drop
      ((c.data ++ [' ', '-', '-', '>']).takeWhile Char.isDigit).length).dropWhile isPySpace) ==
      ['-', '-', '>']) = true
  rw [takeWhile_append_stop Char.isDigit c.data ' ' ['-', '-', '>'] hdig (by decide)]
  have hemp : c.data.isEmpty = false := by
    cases h : c.data with
    | nil => exact absurd h hne
    | cons a as => rfl
  rw [hemp]
  simp only [Bool.false_eq_true, if_false]
  rw [List.drop_left]
  decide

theorem isTagLine_strip_open (n : String) (hne : n.data ≠ [])
    (hdig : ∀ x ∈ n.data, Char.isDigit x = true) :
    isTagLine (pyStrip ("<!-- T" ++ n ++ " -->")) = true := by
  rw [pyStrip_openTag]
  unfold isTagLine
  rw [openTag_data]
  show (if ((n.data ++ [' ', '-', '-', '>']).takeWhile Char.isDigit).isEmpty then false
    else (((n.data ++ [' ', '-', '-', '>']).drop
      ((n.data ++ [' ', '-', '-', '>']).takeWhile Char.isDigit).length).dropWhile isPySpace) ==
      ['-', '-', '>']) = true
  rw [takeWhile_append_stop Char.isDigit n.data ' ' ['-', '-', '>'] hdig (by decide)]
  have hemp : n.data.isEmpty = false := by
    cases h : n.data with
    | nil => exact absurd h hne
    | cons a as => rfl
  rw [hemp]
  simp only [Bool.false_eq_true, if_false]
  rw [List.drop_left]
  decide

theorem goodId_parts (n : String) (h : goodId n = true) :
    n.data ≠ [] ∧ ∀ x ∈ n.data, Char.isDigit x = true := by
  rw [goodId, Bool.and_eq_true, Bool.not_eq_true'] at h
  constructor
  · intro hnil
    rw [hnil] at h
    simp at h
  · intro x hx
    exact List.all_eq_true.mp h.2 x hx

theorem tagGo_blank (A : String → Option String) (cur : Option String) (xs : List String) :
    tagGo A cur ("" :: xs) = "" :: tagGo A cur xs := rfl

theorem tagGo_skip (A : String → Option String) (cur : Option String) (l : String)
    (xs : List String) (h : isTagLine (pyStrip l) = true) :
    tagGo A cur (l :: xs) = tagGo A cur xs := by
  rw [tagGo_cons, if_pos h]

theorem tagGo_emit_steps (A : String → Option String) (cur t : Option String)
    (xs : List String) (hcur : ∀ c, cur = some c → goodId c = true)
    (ht : ∀ n, t = some n → goodId n = true) :
    tagGo A cur (tagEmit cur t ++ xs) =
      (tagEmit cur t).filter (fun l => l == "") ++ tagGo A cur xs := by
  by_cases heq : t = cur
  · unfold tagEmit
    rw [if_pos heq]
    simp
  · unfold tagEmit
    rw [if_neg heq]
    cases cur with
    | none =>
      cases t with
      | none => exact absurd rfl heq
      | some n =>
        obtain ⟨hne, hdig⟩ := goodId_parts n (ht n rfl)
        show tagGo A none (("<!-- T" ++ n ++ " -->") :: "" :: xs) = _
        rw [tagGo_skip A none _ _ (isTagLine_strip_open n hne hdig), tagGo_blank]
        rw [show (([] ++ ["<!-- T" ++ n ++ " -->", ""]) : List String).filter
          (fun l => l == "") = [""] from by
            simp [List.filter_cons, openTag_ne_blank n]]
        rfl
    | some c =>
      obtain ⟨hnec, hdigc⟩ := goodId_parts c (hcur c rfl)
      cases t with
      | none =>
        show tagGo A (some c) (("<!-- /T" ++ c ++ " -->") :: "" :: xs) = _
        rw [tagGo_skip A (some c) _ _ (isTagLine_strip_close c hnec hdigc), tagGo_blank]
        rw [show ((["<!-- /T" ++ c ++ " -->", ""] ++ []) : List String).filter
          (fun l => l == "") = [""] from by
            simp [List.filter_cons, closeTag_ne_blank c]]
        rfl
      | some n =>
        obtain ⟨hnen, hdign⟩ := goodId_parts n (ht n rfl)
        show tagGo A (some c)
          (("<!-- /T" ++ c ++ " -->") :: "" :: ("<!-- T" ++ n ++ " -->") :: "" :: xs) = _
        rw [tagGo_skip A (some c) _ _ (isTagLine_strip_close c hnec hdigc), tagGo_blank,
          tagGo_skip A (some c) _ _ (isTagLine_strip_open n hnen hdign), tagGo_blank]
        rw [show ((["<!-- /T" ++ c ++ " -->", ""] ++ ["<!-- T" ++ n ++ " -->", ""]) :
          List String).filter (fun l => l == "") = ["", ""] from by
            simp [List.filter_cons, closeTag_ne_blank c, openTag_ne_blank n]]
        rfl

theorem filterNB_append (xs ys : List String) :
    filterNB (xs ++ ys) = filterNB xs ++ filterNB ys := by
  simp [filterNB]

theorem filterNB_blanks (xs : List String) :
    filterNB (xs.filter (fun l => l == "")) = [] := by
  rw [filterNB, List.filter_eq_nil]
  intro a ha
  have h2 := (List.mem_filter.mp ha).2
  simp only [h2]
  simp

theorem active_goodIds (T : List (String × Option String))
    (hT : ∀ p ∈ T, ∀ n, p.2 = some n → goodId n = true) :
    ∀ ts n, active_task_at T ts = some n → goodId n = true := by
  intro ts n h
  rw [active_task_at] at h
  by_cases hz : bisect_right (T.map Prod.fst) ts = 0
  · rw [if_pos hz] at h; cases h
  · rw [if_neg hz] at h
    cases hg : T.get? (bisect_right (T.map Prod.fst) ts - 1) with
    | none => rw [hg] at h; cases h
    | some p =>
      rw [hg] at h
      exact hT p (List.get?_mem hg) n h

theorem findWorkNum_digits : ∀ cs ds, findWorkNum cs = some ds →
    ds ≠ [] ∧ ∀ x ∈ ds, Char.isDigit x = true := by
  intro cs
  induction cs with
  | nil => intro ds h; cases h
  | cons c cs ih =>
    intro ds h
    simp only [findWorkNum] at h
    by_cases hp : "tasks work ".data.isPrefixOf (c :: cs)
    · rw [if_pos hp] at h
      by_cases hds : (((c :: cs).drop 11).takeWhile Char.isDigit).isEmpty
      · rw [if_pos hds] at h
        exact ih ds h
      · rw [if_neg hds] at h
        injection h with h
        subst h
        refine ⟨?_, fun x hx => List.mem_takeWhile_imp hx⟩
        intro hnil
        apply hds
        rw [hnil]
        rfl
    · rw [if_neg hp] at h
      exact ih ds h

theorem goodId_zfill3 (ds : List Char) (hne : ds ≠ [])
    (hdig : ∀ x ∈ ds, Char.isDigit x = true) :
    goodId (zfill3 (String.mk ds)) = true := by
  rw [zfill3]
  by_cases hlen : (String.mk ds).length ≥ 3
  · rw [if_pos hlen, goodId, Bool.and_eq_true, Bool.not_eq_true']
    constructor
    · show ds.isEmpty = false
      cases h : ds with
      | nil => exact absurd h hne
      | cons a as => rfl
    · rw [List.all_eq_true]
      exact hdig
  · rw [if_neg hlen, goodId, Bool.and_eq_true, Bool.not_eq_true']
    constructor
    · show ((String.mk (List.replicate (3 - (String.mk ds).length) '0')) ++
        String.mk ds).data.isEmpty = false
      rw [String.data_append _ _]
      cases h : ds with
      | nil => exact absurd h hne
      | cons a as =>
        show (List.replicate _ '0' ++ (a :: as)).isEmpty = false
        cases hrep : List.replicate (3 - (String.mk (a :: as)).length) '0' <;> rfl
    · rw [List.all_eq_true]
      intro x hx
      rw [String.data_append _ _] at hx
      rcases List.mem_append.mp hx with h1 | h1
      · rw [List.eq_of_mem_replicate h1]
        decide
      · exact hdig x h1

theorem buildTransitions_goodIds (lines : List String) :
    ∀ p ∈ buildTransitions lines, ∀ n, p.2 = some n → goodId n = true := by
  intro p hp n hn
  rw [buildTransitions, List.mem_insertionSort] at hp
  obtain ⟨e, he, hte⟩ := List.mem_filterMap.mp hp
  rw [toTransition] at hte
  by_cases hwd : isSubstr "work done".data e.2.data
  · rw [if_pos hwd] at hte
    injection hte with hte
    subst hte
    simp at hn
  · rw [if_neg hwd] at hte
    cases hfw : findWorkNum e.2.data with
    | none => rw [hfw] at hte; cases hte
    | some ds =>
      rw [hfw] at hte
      injection hte with hte
      subst hte
      have h2 : some (zfill3 (String.mk ds)) = some n := hn
      injection h2 with h2
      subst h2
      obtain ⟨hne, hdig⟩ := findWorkNum_digits e.2.data ds hfw
      exact goodId_zfill3 ds hne hdig

theorem tagGo_idem (A : String → Option String)
    (hA : ∀ ts n, A ts = some n → goodId n = true) :
    ∀ (ls : List String) (cur : Option String),
      (∀ c, cur = some c → goodId c = true) →
      filterNB (tagGo A cur (tagGo A cur ls)) = filterNB (tagGo A cur ls) := by
  intro ls
  induction ls with
  | nil =>
    intro cur hcur
    cases cur with
    | none => rfl
    | some c =>
      obtain ⟨hne, hdig⟩ := goodId_parts c (hcur c rfl)
      show filterNB (tagGo A (some c) ("" :: ["<!-- /T" ++ c ++ " -->"])) =
        filterNB ("" :: ["<!-- /T" ++ c ++ " -->"])
      rw [tagGo_blank, tagGo_skip A (some c) _ _ (isTagLine_strip_close c hne hdig)]
      show filterNB ("" :: ("" :: ["<!-- /T" ++ c ++ " -->"])) =
        filterNB ("" :: ["<!-- /T" ++ c ++ " -->"])
      simp [filterNB_cons, closeTag_ne_blank c]
  | cons l ls ih =>
    intro cur hcur
    cases htag : isTagLine (pyStrip l) with
    | true =>
      rw [tagGo_skip A cur l ls htag]
      exact ih cur hcur
    | false =>
      cases hhdr : parseMsgHeaderTs (pyStrip l) with
      | none =>
        have hstep : ∀ xs, tagGo A cur (l :: xs) = l :: tagGo A cur xs := by
          intro xs
          rw [tagGo_cons]
          simp [htag, hhdr]
        rw [hstep ls, hstep (tagGo A cur ls), filterNB_cons, filterNB_cons]
        cases hbl : (l == "") with
        | true => simp [hbl, ih cur hcur]
        | false => simp [hbl, ih cur hcur]
      | some ts =>
        have ht : ∀ nn, A ts = some nn → goodId nn = true := fun nn h => hA ts nn h
        have hstep : ∀ xs, tagGo A cur (l :: xs) =
            tagEmit cur (A ts) ++ l :: tagGo A (A ts) xs := by
          intro xs
          rw [tagGo_cons]
          simp [htag, hhdr]
        rw [hstep ls, tagGo_emit_steps A cur (A ts) _ hcur ht,
          hstep (tagGo A (A ts) ls), filterNB_append, filterNB_append, filterNB_append,
          filterNB_blanks, List.nil_append]
        congr 1
        rw [filterNB_cons, filterNB_cons]
        cases hbl : (l == "") with
        | true => simp [hbl, ih (A ts) ht]
        | false => simp [hbl, ih (A ts) ht]

/-- C2 (amended): the annotation pass is not byte-idempotent — each run
inserts fresh blank padding lines next to the markers it emits (see the
counterexample) — but re-running it duplicates no content: the output of a
second run agrees with the output of the first after discarding blank
lines, for every transcript and event log. -/
theorem C2_amended : ∀ histLines chatLines : List String,
    filterNB (tagPass (buildTransitions histLines)
      (tagPass (buildTransitions histLines) chatLines)) =
      filterNB (tagPass (buildTransitions histLines) chatLines) := by
  intro hist chat
  unfold tagPass
  exact tagGo_idem (active_task_at (buildTransitions hist))
    (active_goodIds _ (buildTransitions_goodIds hist)) chat none
    (fun c hc => Option.noConfusion hc)
